import Mathlib

/-!
Shallow embedding of `src/main.py`, the pipeline driver of the
short-term-rental-prices ML pipeline.  The driver reads a configuration,
resolves which steps to run, and for each selected step (in a hard-coded
order) delegates to the external runner `mlflow.run` with a literal
parameter mapping.  External effects (environment variables, temporary
directory, file writes, runner invocations, error logging) are modelled
as an explicit trace of events; the external runner's outcome is an
oracle `failing : String → Option String` giving, for a component
directory, the error message it raises (or `none` for success).
-/

namespace RentalPipeline

/-- Scalar values the driver passes through from the configuration to the
external runner (strings, ints, numeric floats modelled as rationals,
booleans).  The driver never computes with them. -/
inductive Value where
  | str (s : String)
  | int (n : Int)
  | num (q : ℚ)
  | bool (b : Bool)
  deriving DecidableEq

/-- Observable effects of one driver run, in program order. -/
inductive Event where
  | setEnv (name value : String)
  | mkTmpDir (path : String)
  | writeFile (path content : String)
  | mlflowRun (dir entry : String) (params : List (String × Value))
  | logError (msg : String)
  | rmTmpDir (path : String)
  deriving DecidableEq

/-- The `main.execute_steps` configuration entry: either a list of step
names or a single comma-separated string (`main.py` lines 23-25). -/
inductive ExecSteps where
  | ofString (s : String)
  | ofList (l : List String)
  deriving DecidableEq

/-- The `pipeline` configuration subtree: the export-artifact name plus the
remaining hyperparameters, which the driver treats as opaque. -/
structure PipelineCfg where
  export_artifact : String
  hyperparams : List (String × Value)
  deriving DecidableEq

/-- The fields of the hierarchical run configuration that `main.py` reads. -/
structure Config where
  project_name : String
  experiment_name : String
  execute_steps : ExecSteps
  random_state : Value
  sample : String
  test_size : Value
  val_size : Value
  stratify : Value
  min_price : Value
  max_price : Value
  kl_threshold : Value
  pipeline : PipelineCfg
  deriving DecidableEq

/-- Rendering of a scalar value as text, used by the YAML model below. -/
def Value.render : Value → String
  | .str s => s
  | .int n => toString n
  | .num q => toString q
  | .bool b => toString b

/-- Modelled from the spec: `OmegaConf.to_yaml` is an external library
serializer; the spec describes its output as "structured text (key-value
document)" rendering the `pipeline` configuration subtree verbatim.  We
model it as a key-value rendering of the whole subtree. -/
def PipelineCfg.toYaml (p : PipelineCfg) : String :=
  String.join
    (((("export_artifact", Value.str p.export_artifact)) :: p.hyperparams).map
      (fun kv => kv.1 ++ ": " ++ kv.2.render ++ "\n"))

/-- Embedding of Python `str.split(",")` at the character level: splits at
every comma, keeps empty fragments, performs no trimming; on the empty
list (empty string) it yields one empty fragment, as Python's
`"".split(",") == [""]` does. -/
def splitCommaChars : List Char → List (List Char)
  | [] => [[]]
  | c :: cs =>
    if c = ',' then
      [] :: splitCommaChars cs
    else
      match splitCommaChars cs with
      | [] => [[c]]
      | g :: gs => (c :: g) :: gs

/-- Python `s.split(",")` on a Lean string. -/
def pySplit (s : String) : List String :=
  (splitCommaChars s.data).map String.mk

/-- Character-level comma interposition, the inverse construction of
`splitCommaChars` on comma-free fragments. -/
def joinCommaChars : List (List Char) → List Char
  | [] => []
  | [x] => x
  | x :: xs => x ++ ',' :: joinCommaChars xs

/-- The comma-separated string joining a list of names (how a user writes
`main.execute_steps` on the command line). -/
def joinComma (l : List String) : String :=
  String.mk (joinCommaChars (l.map String.data))

/-- `main.py` lines 23-25: `steps_to_execute` is the configured value,
split on commas when it was passed as a string. -/
def resolveSteps : ExecSteps → List String
  | .ofString s => pySplit s
  | .ofList l => l

/-- `os.path.join(root_path, "components", name)`. -/
def stepDir (root n : String) : String := root ++ "/components/" ++ n

/-- `os.path.abspath(name)`: the name resolved against the current working
directory. -/
def abspath (cwd n : String) : String := cwd ++ "/" ++ n

/-- Boolean substring test on character lists (whether `p` occurs
contiguously in the second list), used to express "the message includes
the step name". -/
def hasInfix (p : List Char) : List Char → Bool
  | [] => p.isEmpty
  | c :: cs => p.isPrefixOf (c :: cs) || hasInfix p cs

/-- The diagnostic text of `logger.error(f"MLflow run failed: {e}")`. -/
def logMsg (e : String) : String := "MLflow run failed: " ++ e

/-- One step of the driver: the gating name, the events performed before
the delegation inside the `try` (the `rf_config` file write for
`train_random_forest`, nothing for the others), the component directory,
and the literal parameter mapping. -/
structure StepSpec where
  name : String
  pre : List Event
  dir : String
  params : List (String × Value)

/-- One `if name in steps_to_execute: try: mlflow.run(...) except: log;
raise` block of `main.py`: skipped when the name is not selected;
otherwise the pre-events and the delegation happen, and on runner failure
the diagnostic is logged and the same error is re-raised. -/
def runBlock (sel : List String) (failing : String → Option String) (st : StepSpec) :
    List Event × Option String :=
  if sel.contains st.name then
    match failing st.dir with
    | none => (st.pre ++ [Event.mlflowRun st.dir "main" st.params], none)
    | some e =>
      (st.pre ++ [Event.mlflowRun st.dir "main" st.params, Event.logError (logMsg e)], some e)
  else ([], none)

/-- Sequential execution of the step blocks, stopping at the first raised
error (which propagates past all later blocks). -/
def runBlocks (sel : List String) (failing : String → Option String) :
    List StepSpec → List Event × Option String
  | [] => ([], none)
  | st :: rest =>
    match runBlock sel failing st with
    | (evs, some e) => (evs, some e)
    | (evs, none) =>
      let r := runBlocks sel failing rest
      (evs ++ r.1, r.2)

/-- The `data_get` block of `main.py` (lines 29-44): component directory and
literal parameter mapping. -/
def dataGetSpec (cfg : Config) (root : String) : StepSpec :=
  { name := "data_get", pre := [], dir := stepDir root "data_get",
    params :=
      [("input_file", Value.str (root ++ "/" ++ cfg.sample)),
       ("artifact_name", Value.str "raw_data.csv"),
       ("artifact_type", Value.str "raw_data"),
       ("artifact_description", Value.str "Input raw dataset from csv file")] }

/-- The `data_clean` block of `main.py` (lines 46-63). -/
def dataCleanSpec (cfg : Config) (root : String) : StepSpec :=
  { name := "data_clean", pre := [], dir := stepDir root "data_clean",
    params :=
      [("input_artifact", Value.str "nyc_airbnb/raw_data.csv:latest"),
       ("output_artifact_name", Value.str "clean_data.csv"),
       ("output_artifact_type", Value.str "clean_data"),
       ("output_artifact_description", Value.str "Clean dataset with outliers removed"),
       ("min_price", cfg.min_price),
       ("max_price", cfg.max_price)] }

/-- The `data_check` block of `main.py` (lines 65-80). -/
def dataCheckSpec (cfg : Config) (root : String) : StepSpec :=
  { name := "data_check", pre := [], dir := stepDir root "data_check",
    params :=
      [("csv", Value.str "nyc_airbnb/clean_data.csv:latest"),
       ("ref", Value.str "nyc_airbnb/clean_data.csv:reference"),
       ("kl_threshold", cfg.kl_threshold),
       ("min_price", cfg.min_price),
       ("max_price", cfg.max_price)] }

/-- The `data_split` block of `main.py` (lines 82-96). -/
def dataSplitSpec (cfg : Config) (root : String) : StepSpec :=
  { name := "data_split", pre := [], dir := stepDir root "data_split",
    params :=
      [("input_data", Value.str "nyc_airbnb/clean_data.csv:latest"),
       ("test_size", cfg.test_size),
       ("random_state", cfg.random_state),
       ("stratify", cfg.stratify)] }

/-- The `train_random_forest` block of `main.py` (lines 98-122): before the
delegation, `rf_config.json` is written at `os.path.abspath("rf_config.json")`
with the serialized `pipeline` subtree, and that path is the `rf_config`
parameter. -/
def trainRandomForestSpec (cfg : Config) (cwd root : String) : StepSpec :=
  { name := "train_random_forest",
    pre := [Event.writeFile (abspath cwd "rf_config.json") cfg.pipeline.toYaml],
    dir := stepDir root "train_random_forest",
    params :=
      [("trainval_artifact", Value.str "nyc_airbnb/trainval_data.csv:latest"),
       ("val_size", cfg.val_size),
       ("random_state", cfg.random_state),
       ("stratify", cfg.stratify),
       ("rf_config", Value.str (abspath cwd "rf_config.json")),
       ("output_artifact", Value.str cfg.pipeline.export_artifact)] }

/-- The `test_model` block of `main.py` (lines 124-136). -/
def testModelSpec (cfg : Config) (root : String) : StepSpec :=
  { name := "test_model", pre := [], dir := stepDir root "test_model",
    params :=
      [("mlflow_model",
        Value.str ("nyc_airbnb/" ++ cfg.pipeline.export_artifact ++ ":prod")),
       ("test_dataset", Value.str "nyc_airbnb/test_data.csv:latest")] }

/-- The six step blocks of `main.py` in source order (lines 29-136). -/
def pipelineSpecs (cfg : Config) (cwd root : String) : List StepSpec :=
  [dataGetSpec cfg root, dataCleanSpec cfg root, dataCheckSpec cfg root,
   dataSplitSpec cfg root, trainRandomForestSpec cfg cwd root, testModelSpec cfg root]

/-- The hard-coded step order of the driver. -/
def fixedOrder : List String :=
  ["data_get", "data_clean", "data_check", "data_split", "train_random_forest", "test_model"]

/-- The driver `go(config)`: sets the two wandb environment values, resolves
the step selection, opens the scoped temporary directory, runs the step
blocks, and removes the temporary directory on every exit path (the
`with tempfile.TemporaryDirectory()` context manager). -/
def go (cfg : Config) (cwd root tmpName : String) (failing : String → Option String) :
    List Event × Option String :=
  let body := runBlocks (resolveSteps cfg.execute_steps) failing (pipelineSpecs cfg cwd root)
  ([Event.setEnv "WANDB_PROJECT" cfg.project_name,
    Event.setEnv "WANDB_RUN_GROUP" cfg.experiment_name,
    Event.mkTmpDir tmpName] ++ body.1 ++ [Event.rmTmpDir tmpName],
   body.2)

/-- The delegated invocations of a trace: directory, entry point, and
parameter mapping of each `mlflowRun` event, in order. -/
def runsOf (evs : List Event) : List (String × String × List (String × Value)) :=
  evs.filterMap (fun e =>
    match e with
    | Event.mlflowRun d ep p => some (d, ep, p)
    | _ => none)

/-- Whether path `p` lies strictly inside directory `d`. -/
def insideDir (d p : String) : Bool := (d ++ "/").data.isPrefixOf p.data

/-- A filesystem abstraction: existing directories and files-with-contents. -/
structure FS where
  dirs : List String
  files : List (String × String)
  deriving DecidableEq

/-- Interpretation of the driver events on the filesystem: the temporary
directory is created and (recursively) removed, file writes truncate and
write; environment, logging and runner events do not touch the
filesystem. -/
def applyEvent (fs : FS) : Event → FS
  | Event.mkTmpDir p => { fs with dirs := p :: fs.dirs }
  | Event.rmTmpDir p =>
      { dirs := fs.dirs.filter (fun d => !(d == p) && !(insideDir p d)),
        files := fs.files.filter (fun f => !(insideDir p f.1)) }
  | Event.writeFile p c =>
      { fs with files := (p, c) :: fs.files.filter (fun f => !(f.1 == p)) }
  | _ => fs

/-- Folding a trace over a starting filesystem. -/
def applyEvents (fs : FS) (evs : List Event) : FS := evs.foldl applyEvent fs

/-! ### Helper lemmas -/

theorem mk_data (s : String) : String.mk s.data = s := by
  cases s
  rfl

theorem runsOf_nil : runsOf [] = [] := rfl

theorem runsOf_append (a b : List Event) : runsOf (a ++ b) = runsOf a ++ runsOf b :=
  List.filterMap_append a b _

theorem splitCommaChars_no_comma (x : List Char) (hx : ',' ∉ x) :
    splitCommaChars x = [x] := by
  induction x with
  | nil => rfl
  | cons c cs ih =>
    have hc : ¬(c = ',') := fun h => hx (h ▸ List.mem_cons_self c cs)
    have ih' := ih (fun h => hx (List.mem_cons_of_mem c h))
    simp [splitCommaChars, hc, ih']

theorem splitCommaChars_append (x ys : List Char) (hx : ',' ∉ x) :
    splitCommaChars (x ++ ',' :: ys) = x :: splitCommaChars ys := by
  induction x with
  | nil => simp [splitCommaChars]
  | cons c cs ih =>
    have hc : ¬(c = ',') := fun h => hx (h ▸ List.mem_cons_self c cs)
    have ih' := ih (fun h => hx (List.mem_cons_of_mem c h))
    simp [splitCommaChars, hc, ih']

theorem splitCommaChars_joinCommaChars (xs : List (List Char))
    (hxs : ∀ x ∈ xs, ',' ∉ x) (hne : xs ≠ []) :
    splitCommaChars (joinCommaChars xs) = xs := by
  induction xs with
  | nil => exact absurd rfl hne
  | cons x rest ih =>
    cases rest with
    | nil => simpa [joinCommaChars] using splitCommaChars_no_comma x (hxs x (by simp))
    | cons y rest' =>
      have hx : ',' ∉ x := hxs x (by simp)
      have ih' := ih (fun z hz => hxs z (List.mem_cons_of_mem x hz)) (by simp)
      simp [joinCommaChars, splitCommaChars_append _ _ hx, ih']

theorem pySplit_joinComma (l : List String) (hl : ∀ s ∈ l, ',' ∉ s.data) (hne : l ≠ []) :
    pySplit (joinComma l) = l := by
  have h1 : splitCommaChars (joinCommaChars (l.map String.data)) = l.map String.data :=
    splitCommaChars_joinCommaChars _
      (by
        intro x hx
        obtain ⟨s, hs, rfl⟩ := List.mem_map.mp hx
        exact hl s hs)
      (by simpa using hne)
  simp only [pySplit, joinComma, h1]
  rw [List.map_map]
  exact List.map_id'' mk_data l

theorem stepDir_inj (root a b : String) (h : stepDir root a = stepDir root b) : a = b := by
  have h2 : root.data ++ ("/components/".data ++ a.data)
      = root.data ++ ("/components/".data ++ b.data) := by
    simpa [stepDir, String.data_append] using congrArg String.data h
  exact String.ext (List.append_cancel_left (List.append_cancel_left h2))

theorem runBlocks_cons_none (sel : List String) (failing : String → Option String)
    (st : StepSpec) (rest : List StepSpec) (bevs : List Event)
    (hb : runBlock sel failing st = (bevs, none)) :
    runBlocks sel failing (st :: rest) =
      (bevs ++ (runBlocks sel failing rest).1, (runBlocks sel failing rest).2) := by
  simp [runBlocks, hb]

theorem runBlocks_cons_some (sel : List String) (failing : String → Option String)
    (st : StepSpec) (rest : List StepSpec) (bevs : List Event) (e : String)
    (hb : runBlock sel failing st = (bevs, some e)) :
    runBlocks sel failing (st :: rest) = (bevs, some e) := by
  simp [runBlocks, hb]

theorem runBlock_pos (sel : List String) (failing : String → Option String) (st : StepSpec)
    (hc : sel.contains st.name = true) (hf : failing st.dir = none) :
    runBlock sel failing st = (st.pre ++ [Event.mlflowRun st.dir "main" st.params], none) := by
  unfold runBlock
  rw [hc, hf]
  rfl

theorem runBlock_fail (sel : List String) (failing : String → Option String) (st : StepSpec)
    (e : String) (hc : sel.contains st.name = true) (hf : failing st.dir = some e) :
    runBlock sel failing st =
      (st.pre ++ [Event.mlflowRun st.dir "main" st.params, Event.logError (logMsg e)],
       some e) := by
  unfold runBlock
  rw [hc, hf]
  rfl

theorem runBlock_neg (sel : List String) (failing : String → Option String) (st : StepSpec)
    (hc : sel.contains st.name = false) :
    runBlock sel failing st = ([], none) := by
  unfold runBlock
  rw [hc]
  rfl

theorem runBlocks_success (sel : List String) (failing : String → Option String)
    (specs : List StepSpec)
    (hpre : ∀ st ∈ specs, runsOf st.pre = [])
    (h : ∀ st ∈ specs, sel.contains st.name = true → failing st.dir = none) :
    (runBlocks sel failing specs).2 = none ∧
    runsOf (runBlocks sel failing specs).1 =
      (specs.filter (fun st => sel.contains st.name)).map
        (fun st => (st.dir, "main", st.params)) := by
  induction specs with
  | nil => simp [runBlocks, runsOf]
  | cons st rest ih =>
    have hpst := hpre st (by simp)
    have ih' := ih (fun s hs => hpre s (by simp [hs])) (fun s hs hsel => h s (by simp [hs]) hsel)
    cases hc : sel.contains st.name with
    | true =>
      have hf : failing st.dir = none := h st (by simp) hc
      rw [runBlocks_cons_none sel failing st rest _ (runBlock_pos sel failing st hc hf)]
      refine ⟨ih'.1, ?_⟩
      rw [runsOf_append, runsOf_append, hpst, ih'.2, List.filter_cons, hc]
      rfl
    | false =>
      rw [runBlocks_cons_none sel failing st rest _ (runBlock_neg sel failing st hc)]
      refine ⟨ih'.1, ?_⟩
      rw [List.nil_append, ih'.2, List.filter_cons, hc]
      rfl

theorem runBlocks_congr (sel₁ sel₂ : List String) (failing : String → Option String)
    (specs : List StepSpec)
    (h : ∀ st ∈ specs, sel₁.contains st.name = sel₂.contains st.name) :
    runBlocks sel₁ failing specs = runBlocks sel₂ failing specs := by
  induction specs with
  | nil => rfl
  | cons st rest ih =>
    have h1 := h st (by simp)
    have ih' := ih (fun s hs => h s (by simp [hs]))
    have hb : runBlock sel₁ failing st = runBlock sel₂ failing st := by
      unfold runBlock
      rw [h1]
    simp only [runBlocks, hb, ih']

theorem runBlocks_mem (sel : List String) (failing : String → Option String)
    (specs : List StepSpec) (ev : Event)
    (h : ev ∈ (runBlocks sel failing specs).1) :
    ∃ st, st ∈ specs ∧ sel.contains st.name = true ∧
      (ev ∈ st.pre ∨ ev = Event.mlflowRun st.dir "main" st.params ∨
       ∃ e, failing st.dir = some e ∧ ev = Event.logError (logMsg e)) := by
  induction specs with
  | nil => simp [runBlocks] at h
  | cons st rest ih =>
    cases hc : sel.contains st.name with
    | true =>
      cases hf : failing st.dir with
      | none =>
        rw [runBlocks_cons_none sel failing st rest _ (runBlock_pos sel failing st hc hf)] at h
        simp only [List.append_assoc, List.mem_append, List.mem_singleton] at h
        rcases h with hp | hr | ht
        · exact ⟨st, by simp, hc, Or.inl hp⟩
        · exact ⟨st, by simp, hc, Or.inr (Or.inl hr)⟩
        · obtain ⟨s, hs, h1, h2⟩ := ih ht
          exact ⟨s, by simp [hs], h1, h2⟩
      | some e =>
        rw [runBlocks_cons_some sel failing st rest _ _
          (runBlock_fail sel failing st e hc hf)] at h
        simp only [List.mem_append, List.mem_cons, List.mem_singleton] at h
        rcases h with hp | hr | hl | hfalse
        · exact ⟨st, by simp, hc, Or.inl hp⟩
        · exact ⟨st, by simp, hc, Or.inr (Or.inl hr)⟩
        · exact ⟨st, by simp, hc, Or.inr (Or.inr ⟨e, hf, hl⟩)⟩
        · exact absurd hfalse (by simp)
    | false =>
      rw [runBlocks_cons_none sel failing st rest _ (runBlock_neg sel failing st hc),
        List.nil_append] at h
      obtain ⟨s, hs, h1, h2⟩ := ih h
      exact ⟨s, by simp [hs], h1, h2⟩

theorem runBlocks_error (sel : List String) (failing : String → Option String)
    (specs : List StepSpec) (evs : List Event) (e : String)
    (h : runBlocks sel failing specs = (evs, some e)) :
    ∃ pre st post, specs = pre ++ st :: post ∧ sel.contains st.name = true ∧
      failing st.dir = some e ∧
      (∀ st' ∈ pre, sel.contains st'.name = true → failing st'.dir = none) ∧
      evs = (runBlocks sel failing pre).1 ++
        (st.pre ++ [Event.mlflowRun st.dir "main" st.params, Event.logError (logMsg e)]) := by
  induction specs generalizing evs with
  | nil => exact absurd (congrArg Prod.snd h) (by simp [runBlocks])
  | cons st rest ih =>
    cases hc : sel.contains st.name with
    | true =>
      cases hf : failing st.dir with
      | none =>
        rw [runBlocks_cons_none sel failing st rest _ (runBlock_pos sel failing st hc hf)] at h
        have h2 : runBlocks sel failing rest = ((runBlocks sel failing rest).1, some e) := by
          have := congrArg Prod.snd h
          simp at this
          simp [← this]
        obtain ⟨pre, st', post, hspec, h1', h2', h3', h4'⟩ := ih _ h2
        refine ⟨st :: pre, st', post, by rw [hspec, List.cons_append], h1', h2', ?_, ?_⟩
        · intro s hs hsel
          rcases List.mem_cons.mp hs with rfl | hs'
          · exact hf
          · exact h3' s hs' hsel
        · have hevs : evs = (st.pre ++ [Event.mlflowRun st.dir "main" st.params]) ++
              (runBlocks sel failing rest).1 := by
            have := congrArg Prod.fst h
            simpa using this.symm
          rw [runBlocks_cons_none sel failing st pre _ (runBlock_pos sel failing st hc hf)]
          simp [hevs, h4']
      | some e' =>
        rw [runBlocks_cons_some sel failing st rest _ _
          (runBlock_fail sel failing st e' hc hf)] at h
        obtain ⟨h1, h2⟩ := Prod.mk.injEq .. ▸ h
        obtain rfl : e' = e := Option.some.injEq .. ▸ h2.symm ▸ rfl
        refine ⟨[], st, rest, rfl, hc, hf, by simp, ?_⟩
        simp [runBlocks, ← h1]
    | false =>
      rw [runBlocks_cons_none sel failing st rest _ (runBlock_neg sel failing st hc),
        List.nil_append] at h
      obtain ⟨pre, st', post, hspec, h1', h2', h3', h4'⟩ := ih _ h
      refine ⟨st :: pre, st', post, by rw [hspec, List.cons_append], h1', h2', ?_, ?_⟩
      · intro s hs hsel
        rcases List.mem_cons.mp hs with rfl | hs'
        · exact Bool.noConfusion (hsel.symm.trans hc)
        · exact h3' s hs' hsel
      · rw [h4',
          runBlocks_cons_none sel failing st pre _ (runBlock_neg sel failing st hc),
          List.nil_append]

theorem runBlocks_reaches_block (sel : List String) (failing : String → Option String)
    (pre : List StepSpec) (st : StepSpec) (post : List StepSpec)
    (hc : sel.contains st.name = true)
    (hpre : ∀ st' ∈ pre, sel.contains st'.name = true → failing st'.dir = none) :
    (st.pre ++ [Event.mlflowRun st.dir "main" st.params]) <:+:
      (runBlocks sel failing (pre ++ st :: post)).1 := by
  induction pre with
  | nil =>
    rw [List.nil_append]
    cases hf : failing st.dir with
    | none =>
      rw [runBlocks_cons_none sel failing st post _ (runBlock_pos sel failing st hc hf)]
      exact ((st.pre ++ [Event.mlflowRun st.dir "main" st.params]).prefix_append _).isInfix
    | some e =>
      rw [runBlocks_cons_some sel failing st post _ _ (runBlock_fail sel failing st e hc hf)]
      refine ⟨[], [Event.logError (logMsg e)], ?_⟩
      simp
  | cons s pre' ih =>
    have ih' := ih (fun s' hs' hsel => hpre s' (List.mem_cons_of_mem s hs') hsel)
    cases hcs : sel.contains s.name with
    | true =>
      have hfs : failing s.dir = none := hpre s (List.mem_cons_self s pre') hcs
      rw [List.cons_append,
        runBlocks_cons_none sel failing s (pre' ++ st :: post) _ (runBlock_pos sel failing s hcs hfs)]
      exact ih'.trans ((List.suffix_append _ _).isInfix)
    | false =>
      rw [List.cons_append,
        runBlocks_cons_none sel failing s (pre' ++ st :: post) _ (runBlock_neg sel failing s hcs),
        List.nil_append]
      exact ih'

theorem go_eq (cfg : Config) (cwd root tmpName : String) (failing : String → Option String) :
    go cfg cwd root tmpName failing =
      ([Event.setEnv "WANDB_PROJECT" cfg.project_name,
        Event.setEnv "WANDB_RUN_GROUP" cfg.experiment_name,
        Event.mkTmpDir tmpName] ++
        (runBlocks (resolveSteps cfg.execute_steps) failing (pipelineSpecs cfg cwd root)).1 ++
        [Event.rmTmpDir tmpName],
       (runBlocks (resolveSteps cfg.execute_steps) failing (pipelineSpecs cfg cwd root)).2) :=
  rfl

theorem runsOf_go (cfg : Config) (cwd root tmpName : String)
    (failing : String → Option String) :
    runsOf (go cfg cwd root tmpName failing).1 =
      runsOf (runBlocks (resolveSteps cfg.execute_steps) failing (pipelineSpecs cfg cwd root)).1 := by
  rw [go_eq]
  show runsOf (_ ++ _ ++ _) = _
  rw [runsOf_append, runsOf_append]
  show [] ++ _ ++ [] = _
  simp

theorem pipelineSpecs_names (cfg : Config) (cwd root : String) :
    (pipelineSpecs cfg cwd root).map StepSpec.name = fixedOrder := rfl

theorem pipelineSpecs_pre (cfg : Config) (cwd root : String) (st : StepSpec)
    (h : st ∈ pipelineSpecs cfg cwd root) :
    st.pre = [] ∨ (st.name = "train_random_forest" ∧
      st.pre = [Event.writeFile (abspath cwd "rf_config.json") cfg.pipeline.toYaml]) := by
  simp only [pipelineSpecs, List.mem_cons, List.mem_singleton, List.not_mem_nil, or_false] at h
  rcases h with rfl | rfl | rfl | rfl | rfl | rfl
  · exact Or.inl rfl
  · exact Or.inl rfl
  · exact Or.inl rfl
  · exact Or.inl rfl
  · exact Or.inr ⟨rfl, rfl⟩
  · exact Or.inl rfl

theorem pipelineSpecs_dir (cfg : Config) (cwd root : String) (st : StepSpec)
    (h : st ∈ pipelineSpecs cfg cwd root) : st.dir = stepDir root st.name := by
  simp only [pipelineSpecs, List.mem_cons, List.mem_singleton, List.not_mem_nil, or_false] at h
  rcases h with rfl | rfl | rfl | rfl | rfl | rfl <;> rfl

theorem pipelineSpecs_runsOf_pre (cfg : Config) (cwd root : String) :
    ∀ st ∈ pipelineSpecs cfg cwd root, runsOf st.pre = [] := by
  intro st h
  rcases pipelineSpecs_pre cfg cwd root st h with h0 | ⟨_, h0⟩ <;> rw [h0] <;> rfl

/-! ### Concrete configurations used to witness the theorems -/

/-- A concrete `pipeline` configuration subtree. -/
def pipelineA : PipelineCfg :=
  { export_artifact := "model_export", hyperparams := [] }

/-- A concrete configuration selecting two steps as a list, out of order. -/
def cfgList : Config :=
  { project_name := "nyc_airbnb", experiment_name := "dev",
    execute_steps := ExecSteps.ofList ["test_model", "data_get"],
    random_state := Value.int 42, sample := "data/sample1.csv",
    test_size := Value.num (0.2 : ℚ), val_size := Value.num (0.2 : ℚ),
    stratify := Value.str "neighbourhood_group",
    min_price := Value.int 10, max_price := Value.int 500,
    kl_threshold := Value.num (0.2 : ℚ), pipeline := pipelineA }

/-- A concrete configuration selecting only `data_get`. -/
def cfgFail : Config := { cfgList with execute_steps := ExecSteps.ofList ["data_get"] }

/-- A runner oracle failing exactly on the `data_get` component. -/
def failDataGet : String → Option String :=
  fun d => if d == "/repo/components/data_get" then some "boom" else none

/-! ### Claims -/

/-- C1: with a failure-free runner, the delegated invocations of a run are
exactly those of the steps whose names are members of the resolved
selection, listed in the driver's fixed order `data_get, data_clean,
data_check, data_split, train_random_forest, test_model` (the order of
`pipelineSpecs`, whose names form `fixedOrder`); moreover any selection
`sel'` with the same membership as the resolved one (e.g. any reordering)
yields the same invocation sequence, so a step runs if and only if its
name is a member of the resolved selection. -/
theorem fixed_order_membership (cfg : Config) (cwd root tmpName : String)
    (failing : String → Option String) (hf : ∀ d, failing d = none)
    (sel' : List String)
    (hsel' : ∀ n, (resolveSteps cfg.execute_steps).contains n = sel'.contains n) :
    (pipelineSpecs cfg cwd root).map StepSpec.name = fixedOrder ∧
    runsOf (go cfg cwd root tmpName failing).1 =
      ((pipelineSpecs cfg cwd root).filter (fun st => sel'.contains st.name)).map
        (fun st => (st.dir, "main", st.params)) := by
  refine ⟨rfl, ?_⟩
  have hs := runBlocks_success (resolveSteps cfg.execute_steps) failing
    (pipelineSpecs cfg cwd root) (pipelineSpecs_runsOf_pre cfg cwd root)
    (fun st _ _ => hf st.dir)
  rw [runsOf_go, hs.2]
  exact congrArg _ (List.filter_congr (fun st _ => hsel' st.name))

/-- Witness for C1 at a concrete configuration whose selection lists
`test_model` before `data_get`: the invocations follow the fixed order,
compared against the reordered selection. -/
theorem fixed_order_membership_witness :
    (pipelineSpecs cfgList "/work" "/repo").map StepSpec.name = fixedOrder ∧
    runsOf (go cfgList "/work" "/repo" "/tmp/scratch" (fun _ => none)).1 =
      ((pipelineSpecs cfgList "/work" "/repo").filter
        (fun st => (["data_get", "test_model"] : List String).contains st.name)).map
        (fun st => (st.dir, "main", st.params)) :=
  fixed_order_membership cfgList "/work" "/repo" "/tmp/scratch" (fun _ => none)
    (fun _ => rfl) ["data_get", "test_model"]
    (fun n => by
      show (["test_model", "data_get"] : List String).contains n
        = (["data_get", "test_model"] : List String).contains n
      simp [or_comm])

/-- C2 (counterexample to the claim as stated): in the concrete run below,
the `data_get` delegation raises "boom"; the only emitted diagnostic is
"MLflow run failed: boom", which does not contain the step name
`data_get`, so the diagnostic does not include the step name. -/
theorem failure_log_lacks_step_name :
    (go cfgFail "/work" "/repo" "/tmp/scratch" failDataGet).2 = some "boom" ∧
    Event.logError (logMsg "boom") ∈ (go cfgFail "/work" "/repo" "/tmp/scratch" failDataGet).1 ∧
    (go cfgFail "/work" "/repo" "/tmp/scratch" failDataGet).1.all
      (fun ev => match ev with
        | Event.logError m => !(hasInfix "data_get".data m.data)
        | _ => true) = true := by
  refine ⟨rfl, by decide, by decide⟩

/-- C2 (amended: the diagnostic includes the underlying cause but not the
step name): whenever a run raises, some selected step's delegation raised
that very error, the diagnostic "MLflow run failed: " followed by the
cause was logged, the identical error is the run's outcome, and the
delegated invocations stop at the failing step — no step later in the
fixed order is invoked. -/
theorem failure_logged_reraised_aborts (cfg : Config) (cwd root tmpName : String)
    (failing : String → Option String) (evs : List Event) (e : String)
    (h : go cfg cwd root tmpName failing = (evs, some e)) :
    ∃ pre st post,
      pipelineSpecs cfg cwd root = pre ++ st :: post ∧
      (resolveSteps cfg.execute_steps).contains st.name = true ∧
      failing st.dir = some e ∧
      Event.logError (logMsg e) ∈ evs ∧
      runsOf evs =
        (pre.filter (fun s => (resolveSteps cfg.execute_steps).contains s.name)).map
          (fun s => (s.dir, "main", s.params)) ++ [(st.dir, "main", st.params)] := by
  have h2 : (runBlocks (resolveSteps cfg.execute_steps) failing (pipelineSpecs cfg cwd root)).2
      = some e := by
    simpa [go_eq] using congrArg Prod.snd h
  have hevs : evs =
      [Event.setEnv "WANDB_PROJECT" cfg.project_name,
       Event.setEnv "WANDB_RUN_GROUP" cfg.experiment_name,
       Event.mkTmpDir tmpName] ++
      (runBlocks (resolveSteps cfg.execute_steps) failing (pipelineSpecs cfg cwd root)).1 ++
      [Event.rmTmpDir tmpName] := by
    simpa [go_eq] using (congrArg Prod.fst h).symm
  obtain ⟨pre, st, post, hspec, h1, h2', h3, h4⟩ :=
    runBlocks_error (resolveSteps cfg.execute_steps) failing (pipelineSpecs cfg cwd root)
      _ e (Prod.ext rfl h2)
  refine ⟨pre, st, post, hspec, h1, h2', ?_, ?_⟩
  · rw [hevs]
    simp only [h4]
    simp
  · have hpre_run : runsOf st.pre = [] :=
      pipelineSpecs_runsOf_pre cfg cwd root st (by rw [hspec]; simp)
    have hsucc := runBlocks_success (resolveSteps cfg.execute_steps) failing pre
      (fun s hs => pipelineSpecs_runsOf_pre cfg cwd root s (by rw [hspec]; simp [hs])) h3
    rw [hevs, runsOf_append, runsOf_append]
    simp only [h4]
    rw [runsOf_append, runsOf_append, hsucc.2, hpre_run]
    simp [runsOf]

/-- Witness for C2 (amended) at the concrete failing run. -/
theorem failure_logged_reraised_aborts_witness :
    ∃ pre st post,
      pipelineSpecs cfgFail "/work" "/repo" = pre ++ st :: post ∧
      (resolveSteps cfgFail.execute_steps).contains st.name = true ∧
      failDataGet st.dir = some "boom" ∧
      Event.logError (logMsg "boom")
        ∈ (go cfgFail "/work" "/repo" "/tmp/scratch" failDataGet).1 ∧
      runsOf (go cfgFail "/work" "/repo" "/tmp/scratch" failDataGet).1 =
        (pre.filter (fun s => (resolveSteps cfgFail.execute_steps).contains s.name)).map
          (fun s => (s.dir, "main", s.params)) ++ [(st.dir, "main", st.params)] :=
  failure_logged_reraised_aborts cfgFail "/work" "/repo" "/tmp/scratch" failDataGet
    (go cfgFail "/work" "/repo" "/tmp/scratch" failDataGet).1 "boom" rfl

/-- C3: when the resolved selection is exactly `["data_check"]` and the
configuration carries `etl.min_price = 10`, `etl.max_price = 500`,
`data_check.kl_threshold = 0.2`, the run performs exactly one delegated
invocation, targeting the `data_check` component directory, with exactly
the claimed parameter mapping (whether or not the runner raises). -/
theorem data_check_single_invocation (cfg : Config) (cwd root tmpName : String)
    (failing : String → Option String)
    (hsel : resolveSteps cfg.execute_steps = ["data_check"])
    (hkl : cfg.kl_threshold = Value.num (0.2 : ℚ))
    (hmin : cfg.min_price = Value.int 10)
    (hmax : cfg.max_price = Value.int 500) :
    runsOf (go cfg cwd root tmpName failing).1 =
      [(stepDir root "data_check", "main",
        [("csv", Value.str "nyc_airbnb/clean_data.csv:latest"),
         ("ref", Value.str "nyc_airbnb/clean_data.csv:reference"),
         ("kl_threshold", Value.num (0.2 : ℚ)),
         ("min_price", Value.int 10),
         ("max_price", Value.int 500)])] := by
  rw [runsOf_go, hsel]
  cases hf : failing (stepDir root "data_check") with
  | none =>
    simp [pipelineSpecs, runBlocks, runBlock, runsOf, dataGetSpec, dataCleanSpec,
      dataCheckSpec, dataSplitSpec, trainRandomForestSpec, testModelSpec, hf,
      hkl, hmin, hmax]
  | some e =>
    simp [pipelineSpecs, runBlocks, runBlock, runsOf, dataGetSpec, dataCleanSpec,
      dataCheckSpec, dataSplitSpec, trainRandomForestSpec, testModelSpec, hf,
      hkl, hmin, hmax]

/-- Witness for C3: the configuration below selects `data_check` through the
comma-separated-string form and carries the claimed `etl` and
`data_check` values. -/
theorem data_check_single_invocation_witness :
    runsOf (go { cfgList with execute_steps := ExecSteps.ofString "data_check" }
        "/work" "/repo" "/tmp/scratch" (fun _ => none)).1 =
      [(stepDir "/repo" "data_check", "main",
        [("csv", Value.str "nyc_airbnb/clean_data.csv:latest"),
         ("ref", Value.str "nyc_airbnb/clean_data.csv:reference"),
         ("kl_threshold", Value.num (0.2 : ℚ)),
         ("min_price", Value.int 10),
         ("max_price", Value.int 500)])] :=
  data_check_single_invocation
    { cfgList with execute_steps := ExecSteps.ofString "data_check" }
    "/work" "/repo" "/tmp/scratch" (fun _ => none) rfl rfl rfl rfl

/-- C4: running the driver with `execute_steps` given as the comma-separated
string joining a list of names produces exactly the same run — the same
events (hence the same delegated invocations, in the same order, with the
same parameters) and the same outcome — as running it with the list
itself, for any list of comma-free names (every step name is
comma-free). -/
theorem comma_string_equals_list (cfg : Config) (cwd root tmpName : String)
    (failing : String → Option String) (L : List String)
    (hL : ∀ s ∈ L, ',' ∉ s.data) :
    go { cfg with execute_steps := ExecSteps.ofString (joinComma L) } cwd root tmpName failing =
    go { cfg with execute_steps := ExecSteps.ofList L } cwd root tmpName failing := by
  have key : runBlocks (resolveSteps (ExecSteps.ofString (joinComma L))) failing
      (pipelineSpecs cfg cwd root) =
      runBlocks (resolveSteps (ExecSteps.ofList L)) failing (pipelineSpecs cfg cwd root) := by
    rcases eq_or_ne L [] with rfl | hne
    · exact runBlocks_congr [""] [] failing (pipelineSpecs cfg cwd root) (by
        intro st hst
        simp only [pipelineSpecs, List.mem_cons, List.not_mem_nil, or_false] at hst
        rcases hst with rfl | rfl | rfl | rfl | rfl | rfl <;> rfl)
    · rw [show resolveSteps (ExecSteps.ofString (joinComma L)) = L from
        pySplit_joinComma L hL hne]
      rfl
  calc go { cfg with execute_steps := ExecSteps.ofString (joinComma L) } cwd root tmpName failing
      = ([Event.setEnv "WANDB_PROJECT" cfg.project_name,
          Event.setEnv "WANDB_RUN_GROUP" cfg.experiment_name,
          Event.mkTmpDir tmpName] ++
          (runBlocks (resolveSteps (ExecSteps.ofString (joinComma L))) failing
            (pipelineSpecs cfg cwd root)).1 ++ [Event.rmTmpDir tmpName],
         (runBlocks (resolveSteps (ExecSteps.ofString (joinComma L))) failing
            (pipelineSpecs cfg cwd root)).2) := rfl
    _ = ([Event.setEnv "WANDB_PROJECT" cfg.project_name,
          Event.setEnv "WANDB_RUN_GROUP" cfg.experiment_name,
          Event.mkTmpDir tmpName] ++
          (runBlocks (resolveSteps (ExecSteps.ofList L)) failing
            (pipelineSpecs cfg cwd root)).1 ++ [Event.rmTmpDir tmpName],
         (runBlocks (resolveSteps (ExecSteps.ofList L)) failing
            (pipelineSpecs cfg cwd root)).2) := by rw [key]
    _ = go { cfg with execute_steps := ExecSteps.ofList L } cwd root tmpName failing := rfl

/-- Witness for C4 at a concrete two-step list. -/
theorem comma_string_equals_list_witness :
    go { cfgList with execute_steps :=
          ExecSteps.ofString (joinComma ["data_get", "test_model"]) }
        "/work" "/repo" "/tmp/scratch" (fun _ => none) =
    go { cfgList with execute_steps := ExecSteps.ofList ["data_get", "test_model"] }
        "/work" "/repo" "/tmp/scratch" (fun _ => none) :=
  comma_string_equals_list cfgList "/work" "/repo" "/tmp/scratch" (fun _ => none)
    ["data_get", "test_model"] (by decide)

/-- C5: a step identifier that is not a member of the resolved selection
triggers nothing for that step: no delegated invocation targets that
step's component directory, and — for `train_random_forest` — no file
(in particular no `rf_config` file) is written during the run. -/
theorem absent_step_no_calls (cfg : Config) (cwd root tmpName : String)
    (failing : String → Option String) (n : String)
    (hn : (resolveSteps cfg.execute_steps).contains n = false) :
    ((go cfg cwd root tmpName failing).1.all (fun ev =>
      match ev with
      | Event.mlflowRun d _ _ => !(d == stepDir root n)
      | _ => true)) = true ∧
    (n = "train_random_forest" →
      ((go cfg cwd root tmpName failing).1.all (fun ev =>
        match ev with
        | Event.writeFile _ _ => false
        | _ => true)) = true) := by
  constructor
  · refine List.all_eq_true.mpr ?_
    intro ev hev
    rw [go_eq] at hev
    simp only [List.mem_append, List.mem_cons, List.not_mem_nil, or_false] at hev
    rcases hev with ((rfl | rfl | rfl) | hb) | rfl
    · rfl
    · rfl
    · rfl
    · obtain ⟨st, hst, hsel, hcase⟩ := runBlocks_mem _ _ _ _ hb
      rcases hcase with hpre | rfl | ⟨e, _, rfl⟩
      · rcases pipelineSpecs_pre cfg cwd root st hst with h0 | ⟨_, h0⟩
        · rw [h0] at hpre
          exact absurd hpre (List.not_mem_nil _)
        · rw [h0, List.mem_singleton] at hpre
          subst hpre
          rfl
      · have hne : st.name ≠ n := fun hEq => Bool.noConfusion ((hEq ▸ hsel).symm.trans hn)
        have hdir : stepDir root st.name ≠ stepDir root n :=
          fun hEq => hne (stepDir_inj root st.name n hEq)
        rw [pipelineSpecs_dir cfg cwd root st hst]
        simp [hdir]
      · rfl
    · rfl
  · intro hn'
    subst hn'
    refine List.all_eq_true.mpr ?_
    intro ev hev
    rw [go_eq] at hev
    simp only [List.mem_append, List.mem_cons, List.not_mem_nil, or_false] at hev
    rcases hev with ((rfl | rfl | rfl) | hb) | rfl
    · rfl
    · rfl
    · rfl
    · obtain ⟨st, hst, hsel, hcase⟩ := runBlocks_mem _ _ _ _ hb
      rcases hcase with hpre | rfl | ⟨e, _, rfl⟩
      · rcases pipelineSpecs_pre cfg cwd root st hst with h0 | ⟨hname, h0⟩
        · rw [h0] at hpre
          exact absurd hpre (List.not_mem_nil _)
        · exact absurd (hsel.symm.trans (hname ▸ hn)) (by simp)
      · rfl
      · rfl
    · rfl

/-- Witness for C5: in a run selecting only `data_get`, the absent step
`train_random_forest` triggers no invocation and no file write. -/
theorem absent_step_no_calls_witness :
    ((go cfgFail "/work" "/repo" "/tmp/scratch" (fun _ => none)).1.all (fun ev =>
      match ev with
      | Event.mlflowRun d _ _ => !(d == stepDir "/repo" "train_random_forest")
      | _ => true)) = true ∧
    ("train_random_forest" = "train_random_forest" →
      ((go cfgFail "/work" "/repo" "/tmp/scratch" (fun _ => none)).1.all (fun ev =>
        match ev with
        | Event.writeFile _ _ => false
        | _ => true)) = true) :=
  absent_step_no_calls cfgFail "/work" "/repo" "/tmp/scratch" (fun _ => none)
    "train_random_forest" rfl

/-- A concrete configuration selecting only `train_random_forest`. -/
def cfgTrain : Config :=
  { cfgList with execute_steps := ExecSteps.ofList ["train_random_forest"] }

/-- C6: when the resolved selection contains `train_random_forest` and the
steps before it in the fixed order do not fail, the trace contains — as
two adjacent events — the write of the serialized `pipeline` subtree to
the absolute path `abspath cwd "rf_config.json"` followed immediately by
the `train_random_forest` delegation; that delegation's `rf_config`
parameter equals the written file's absolute path, and its
`output_artifact` parameter equals `config.pipeline.export_artifact`. -/
theorem train_serializes_pipeline_config (cfg : Config) (cwd root tmpName : String)
    (failing : String → Option String)
    (hsel : (resolveSteps cfg.execute_steps).contains "train_random_forest" = true)
    (hpre : ∀ n ∈ (["data_get", "data_clean", "data_check", "data_split"] : List String),
      failing (stepDir root n) = none) :
    ([Event.writeFile (abspath cwd "rf_config.json") cfg.pipeline.toYaml,
      Event.mlflowRun (stepDir root "train_random_forest") "main"
        (trainRandomForestSpec cfg cwd root).params]
      <:+: (go cfg cwd root tmpName failing).1) ∧
    ("rf_config", Value.str (abspath cwd "rf_config.json"))
      ∈ (trainRandomForestSpec cfg cwd root).params ∧
    ("output_artifact", Value.str cfg.pipeline.export_artifact)
      ∈ (trainRandomForestSpec cfg cwd root).params := by
  refine ⟨?_, by simp [trainRandomForestSpec], by simp [trainRandomForestSpec]⟩
  have hinf := runBlocks_reaches_block (resolveSteps cfg.execute_steps) failing
    [dataGetSpec cfg root, dataCleanSpec cfg root, dataCheckSpec cfg root,
     dataSplitSpec cfg root]
    (trainRandomForestSpec cfg cwd root) [testModelSpec cfg root] hsel
    (by
      intro st' hst' hsel'
      simp only [List.mem_cons, List.not_mem_nil, or_false] at hst'
      rcases hst' with rfl | rfl | rfl | rfl
      · exact hpre "data_get" (by simp)
      · exact hpre "data_clean" (by simp)
      · exact hpre "data_check" (by simp)
      · exact hpre "data_split" (by simp))
  have hbody : ([Event.writeFile (abspath cwd "rf_config.json") cfg.pipeline.toYaml,
      Event.mlflowRun (stepDir root "train_random_forest") "main"
        (trainRandomForestSpec cfg cwd root).params]
      : List Event) <:+:
      (runBlocks (resolveSteps cfg.execute_steps) failing (pipelineSpecs cfg cwd root)).1 :=
    hinf
  obtain ⟨s, t, hst⟩ := hbody
  rw [go_eq]
  refine ⟨[Event.setEnv "WANDB_PROJECT" cfg.project_name,
    Event.setEnv "WANDB_RUN_GROUP" cfg.experiment_name,
    Event.mkTmpDir tmpName] ++ s, t ++ [Event.rmTmpDir tmpName], ?_⟩
  rw [← hst]
  simp

/-- Witness for C6 at a run selecting `train_random_forest` through the
comma-separated-string form. -/
theorem train_serializes_pipeline_config_witness :
    ([Event.writeFile (abspath "/work" "rf_config.json")
        ({ cfgList with execute_steps := ExecSteps.ofString "train_random_forest"
           } : Config).pipeline.toYaml,
      Event.mlflowRun (stepDir "/repo" "train_random_forest") "main"
        (trainRandomForestSpec
          { cfgList with execute_steps := ExecSteps.ofString "train_random_forest" }
          "/work" "/repo").params]
      <:+: (go { cfgList with execute_steps := ExecSteps.ofString "train_random_forest" }
              "/work" "/repo" "/tmp/scratch" (fun _ => none)).1) ∧
    ("rf_config", Value.str (abspath "/work" "rf_config.json"))
      ∈ (trainRandomForestSpec
          { cfgList with execute_steps := ExecSteps.ofString "train_random_forest" }
          "/work" "/repo").params ∧
    ("output_artifact", Value.str
        ({ cfgList with execute_steps := ExecSteps.ofString "train_random_forest"
           } : Config).pipeline.export_artifact)
      ∈ (trainRandomForestSpec
          { cfgList with execute_steps := ExecSteps.ofString "train_random_forest" }
          "/work" "/repo").params :=
  train_serializes_pipeline_config
    { cfgList with execute_steps := ExecSteps.ofString "train_random_forest" }
    "/work" "/repo" "/tmp/scratch" (fun _ => none) rfl (fun _ _ => rfl)

/-- C7 (counterexample to the claim as stated): in the concrete run below
(`train_random_forest` selected, temporary directory `/tmp/scratch`), a
configuration file is written, yet no written path lies inside the
temporary directory — the file is not written in the scratch
directory. -/
theorem rf_config_not_in_tmpdir :
    ((go cfgTrain "/work" "/repo" "/tmp/scratch" (fun _ => none)).1.any (fun ev =>
      match ev with
      | Event.writeFile _ _ => true
      | _ => false)) = true ∧
    ((go cfgTrain "/work" "/repo" "/tmp/scratch" (fun _ => none)).1.all (fun ev =>
      match ev with
      | Event.writeFile p _ => !(insideDir "/tmp/scratch" p)
      | _ => true)) = true := by
  exact ⟨rfl, rfl⟩

/-- C7 (amended): the training configuration file is written at the fixed
path `rf_config.json` resolved against the current working directory —
not inside the scoped temporary directory; every file write of a run has
exactly that path and carries the serialized `pipeline` subtree. -/
theorem rf_config_written_at_cwd (cfg : Config) (cwd root tmpName : String)
    (failing : String → Option String) (p c : String)
    (h : Event.writeFile p c ∈ (go cfg cwd root tmpName failing).1) :
    p = abspath cwd "rf_config.json" ∧ c = cfg.pipeline.toYaml := by
  rw [go_eq] at h
  simp only [List.mem_append, List.mem_cons, List.not_mem_nil, or_false] at h
  rcases h with ((h | h | h) | hb) | h
  · exact Event.noConfusion h
  · exact Event.noConfusion h
  · exact Event.noConfusion h
  · obtain ⟨st, hst, _, hcase⟩ := runBlocks_mem _ _ _ _ hb
    rcases hcase with hpre | heq | ⟨e, _, heq⟩
    · rcases pipelineSpecs_pre cfg cwd root st hst with h0 | ⟨_, h0⟩
      · rw [h0] at hpre
        exact absurd hpre (List.not_mem_nil _)
      · rw [h0, List.mem_singleton] at hpre
        exact ⟨(Event.writeFile.injEq .. ▸ hpre).1, (Event.writeFile.injEq .. ▸ hpre).2⟩
    · exact Event.noConfusion heq
    · exact Event.noConfusion heq
  · exact Event.noConfusion h

/-- Witness for C7 (amended) at the concrete training run. -/
theorem rf_config_written_at_cwd_witness :
    "/work/rf_config.json" = abspath "/work" "rf_config.json" ∧
    PipelineCfg.toYaml pipelineA = cfgTrain.pipeline.toYaml :=
  rf_config_written_at_cwd cfgTrain "/work" "/repo" "/tmp/scratch" (fun _ => none)
    "/work/rf_config.json" (PipelineCfg.toYaml pipelineA) (by decide)

/-- Folding a trace split as `body ++ [e]`. -/
theorem applyEvents_concat (fs : FS) (l : List Event) (e : Event) :
    applyEvents fs (l ++ [e]) = applyEvent (applyEvents fs l) e := by
  simp [applyEvents, List.foldl_append]

/-- C8: on every exit path (the run outcome — success or propagated
failure — is arbitrary), the trace ends with the removal of the
temporary directory; after interpreting the trace on any starting
filesystem the temporary directory no longer exists, and the removal
affects nothing else: every other directory not inside it, and every
file not inside it, exists after the full trace exactly as it does after
the trace without the final removal event. -/
theorem tmpdir_removed_every_exit (cfg : Config) (cwd root tmpName : String)
    (failing : String → Option String) (fs₀ : FS) :
    (go cfg cwd root tmpName failing).1 =
      (go cfg cwd root tmpName failing).1.dropLast ++ [Event.rmTmpDir tmpName] ∧
    (applyEvents fs₀ (go cfg cwd root tmpName failing).1).dirs.contains tmpName = false ∧
    (∀ d : String, (d == tmpName) = false → insideDir tmpName d = false →
      ((applyEvents fs₀ (go cfg cwd root tmpName failing).1).dirs.contains d =
        (applyEvents fs₀ ((go cfg cwd root tmpName failing).1.dropLast)).dirs.contains d)) ∧
    (∀ p c : String, insideDir tmpName p = false →
      (((applyEvents fs₀ (go cfg cwd root tmpName failing).1).files.contains (p, c)) =
        ((applyEvents fs₀ ((go cfg cwd root tmpName failing).1.dropLast)).files.contains (p, c)))) := by
  have hsplit : (go cfg cwd root tmpName failing).1 =
      ([Event.setEnv "WANDB_PROJECT" cfg.project_name,
        Event.setEnv "WANDB_RUN_GROUP" cfg.experiment_name,
        Event.mkTmpDir tmpName] ++
        (runBlocks (resolveSteps cfg.execute_steps) failing (pipelineSpecs cfg cwd root)).1) ++
      [Event.rmTmpDir tmpName] := by
    rw [go_eq]
  have hdrop : (go cfg cwd root tmpName failing).1.dropLast =
      [Event.setEnv "WANDB_PROJECT" cfg.project_name,
        Event.setEnv "WANDB_RUN_GROUP" cfg.experiment_name,
        Event.mkTmpDir tmpName] ++
        (runBlocks (resolveSteps cfg.execute_steps) failing (pipelineSpecs cfg cwd root)).1 := by
    rw [hsplit]
    exact List.dropLast_concat
  have happ : applyEvents fs₀ (go cfg cwd root tmpName failing).1 =
      applyEvent (applyEvents fs₀ ((go cfg cwd root tmpName failing).1.dropLast))
        (Event.rmTmpDir tmpName) := by
    conv_lhs => rw [hsplit]
    rw [applyEvents_concat, hdrop]
  refine ⟨by rw [hdrop]; exact hsplit, ?_, ?_, ?_⟩
  · rw [happ]
    simp [applyEvent, List.mem_filter]
  · intro d hd1 hd2
    rw [happ]
    simp [applyEvent, List.mem_filter, hd1, hd2]
  · intro p c hp
    rw [happ]
    simp [applyEvent, List.mem_filter, hp]

/-- Witness for C8 at a concrete failing run starting from a filesystem
holding an unrelated directory and file, instantiating the
frame conditions at them. -/
theorem tmpdir_removed_every_exit_witness :
    (applyEvents (FS.mk ["/keep"] [("/keep/f.txt", "x")])
      (go cfgFail "/work" "/repo" "/tmp/scratch" failDataGet).1).dirs.contains
        "/tmp/scratch" = false ∧
    ((applyEvents (FS.mk ["/keep"] [("/keep/f.txt", "x")])
        (go cfgFail "/work" "/repo" "/tmp/scratch" failDataGet).1).dirs.contains "/keep" =
      (applyEvents (FS.mk ["/keep"] [("/keep/f.txt", "x")])
        ((go cfgFail "/work" "/repo" "/tmp/scratch" failDataGet).1.dropLast)).dirs.contains
          "/keep") ∧
    ((applyEvents (FS.mk ["/keep"] [("/keep/f.txt", "x")])
        (go cfgFail "/work" "/repo" "/tmp/scratch" failDataGet).1).files.contains
          ("/keep/f.txt", "x") =
      (applyEvents (FS.mk ["/keep"] [("/keep/f.txt", "x")])
        ((go cfgFail "/work" "/repo" "/tmp/scratch" failDataGet).1.dropLast)).files.contains
          ("/keep/f.txt", "x")) :=
  ⟨(tmpdir_removed_every_exit cfgFail "/work" "/repo" "/tmp/scratch" failDataGet
      (FS.mk ["/keep"] [("/keep/f.txt", "x")])).2.1,
   (tmpdir_removed_every_exit cfgFail "/work" "/repo" "/tmp/scratch" failDataGet
      (FS.mk ["/keep"] [("/keep/f.txt", "x")])).2.2.1 "/keep" (by decide) (by decide),
   (tmpdir_removed_every_exit cfgFail "/work" "/repo" "/tmp/scratch" failDataGet
      (FS.mk ["/keep"] [("/keep/f.txt", "x")])).2.2.2 "/keep/f.txt" "x" (by decide)⟩

/-- C9: the first two events of every run set the two process-scoped
environment values (the wandb project name from `main.project_name` and
the run-group name from `main.experiment_name`), before the temporary
directory is created and before any step block runs; no later event of
the run sets an environment value, so they are unchanged by every
subsequent step. -/
theorem env_values_set_once_before_steps (cfg : Config) (cwd root tmpName : String)
    (failing : String → Option String) :
    (go cfg cwd root tmpName failing).1 =
      Event.setEnv "WANDB_PROJECT" cfg.project_name ::
      Event.setEnv "WANDB_RUN_GROUP" cfg.experiment_name ::
      (Event.mkTmpDir tmpName ::
        ((runBlocks (resolveSteps cfg.execute_steps) failing (pipelineSpecs cfg cwd root)).1 ++
          [Event.rmTmpDir tmpName])) ∧
    ((Event.mkTmpDir tmpName ::
        ((runBlocks (resolveSteps cfg.execute_steps) failing (pipelineSpecs cfg cwd root)).1 ++
          [Event.rmTmpDir tmpName])).all (fun ev =>
      match ev with
      | Event.setEnv _ _ => false
      | _ => true)) = true := by
  refine ⟨rfl, ?_⟩
  refine List.all_eq_true.mpr ?_
  intro ev hev
  simp only [List.mem_cons, List.mem_append, List.not_mem_nil, or_false] at hev
  rcases hev with rfl | hb | rfl
  · rfl
  · obtain ⟨st, hst, _, hcase⟩ := runBlocks_mem _ _ _ _ hb
    rcases hcase with hpre | rfl | ⟨e, _, rfl⟩
    · rcases pipelineSpecs_pre cfg cwd root st hst with h0 | ⟨_, h0⟩
      · rw [h0] at hpre
        exact absurd hpre (List.not_mem_nil _)
      · rw [h0, List.mem_singleton] at hpre
        subst hpre
        rfl
    · rfl
    · rfl
  · rfl

/-- C10: splitting the comma-separated `execute_steps` string trims no
whitespace and drops no empty fragment: `"data_get, data_clean"`
resolves to `["data_get", " data_clean"]`, so `data_get` runs but the
whitespace-padded `" data_clean"` matches no step and `data_clean` is
silently skipped; the empty string resolves to `[""]`, which runs no
step at all. -/
theorem split_keeps_whitespace_and_empties (cfg₁ cfg₂ : Config)
    (cwd root tmpName : String) (failing : String → Option String)
    (h₁ : cfg₁.execute_steps = ExecSteps.ofString "data_get, data_clean")
    (h₂ : cfg₂.execute_steps = ExecSteps.ofString "")
    (hdg : failing (stepDir root "data_get") = none) :
    resolveSteps (ExecSteps.ofString "data_get, data_clean") =
      ["data_get", " data_clean"] ∧
    runsOf (go cfg₁ cwd root tmpName failing).1 =
      [(stepDir root "data_get", "main", (dataGetSpec cfg₁ root).params)] ∧
    resolveSteps (ExecSteps.ofString "") = [""] ∧
    runsOf (go cfg₂ cwd root tmpName failing).1 = [] := by
  refine ⟨rfl, ?_, rfl, ?_⟩
  · rw [runsOf_go, h₁]
    have hs := runBlocks_success (resolveSteps (ExecSteps.ofString "data_get, data_clean"))
      failing (pipelineSpecs cfg₁ cwd root) (pipelineSpecs_runsOf_pre cfg₁ cwd root)
      (by
        intro st hst hsel'
        simp only [pipelineSpecs, List.mem_cons, List.not_mem_nil, or_false] at hst
        rcases hst with rfl | rfl | rfl | rfl | rfl | rfl
        · exact hdg
        · exact Bool.noConfusion hsel'
        · exact Bool.noConfusion hsel'
        · exact Bool.noConfusion hsel'
        · exact Bool.noConfusion hsel'
        · exact Bool.noConfusion hsel')
    rw [hs.2]
    rfl
  · rw [runsOf_go, h₂]
    have hs := runBlocks_success (resolveSteps (ExecSteps.ofString ""))
      failing (pipelineSpecs cfg₂ cwd root) (pipelineSpecs_runsOf_pre cfg₂ cwd root)
      (by
        intro st hst hsel'
        simp only [pipelineSpecs, List.mem_cons, List.not_mem_nil, or_false] at hst
        rcases hst with rfl | rfl | rfl | rfl | rfl | rfl
        · exact Bool.noConfusion hsel'
        · exact Bool.noConfusion hsel'
        · exact Bool.noConfusion hsel'
        · exact Bool.noConfusion hsel'
        · exact Bool.noConfusion hsel'
        · exact Bool.noConfusion hsel')
    rw [hs.2]
    rfl

/-- Witness for C10 at concrete configurations. -/
theorem split_keeps_whitespace_and_empties_witness :
    resolveSteps (ExecSteps.ofString "data_get, data_clean") =
      ["data_get", " data_clean"] ∧
    runsOf (go { cfgList with execute_steps := ExecSteps.ofString "data_get, data_clean" }
        "/work" "/repo" "/tmp/scratch" (fun _ => none)).1 =
      [(stepDir "/repo" "data_get", "main",
        (dataGetSpec { cfgList with
          execute_steps := ExecSteps.ofString "data_get, data_clean" } "/repo").params)] ∧
    resolveSteps (ExecSteps.ofString "") = [""] ∧
    runsOf (go { cfgList with execute_steps := ExecSteps.ofString "" }
        "/work" "/repo" "/tmp/scratch" (fun _ => none)).1 = [] :=
  split_keeps_whitespace_and_empties
    { cfgList with execute_steps := ExecSteps.ofString "data_get, data_clean" }
    { cfgList with execute_steps := ExecSteps.ofString "" }
    "/work" "/repo" "/tmp/scratch" (fun _ => none) rfl rfl rfl

end RentalPipeline
